import Mathlib

/-
Verification of the technical-indicator engine of src/agents/technicals.py.

Shallow embedding conventions:
  * Python floats are modelled by exact rationals (ℚ).  `x ** 0.5` is modelled
    by `Rat.sqrt`; every property proved below depends only on
    `Rat.sqrt 0 = 0` and `0 ≤ Rat.sqrt q`, never on the numeric value of a
    square root.
  * `round(x, n)` is modelled by `pyRoundTo (10^n) x`, rounding to the nearest
    multiple of `10⁻ⁿ` (ties away from the midpoint the same way for every
    call; no property proved below depends on the tie-breaking rule).
  * A Python price dict {"open", "high", "low", "close", "volume"} is the
    structure `PricePoint` ("date" is metadata never used by the indicator
    math).  Optional results are `Option`.
  * `_analyze_volume` is additionally embedded with explicit bounds-checked
    indexing (`pyIdx`), because its index arithmetic can leave the list:
    its result type `Option (Option VolumeResult)` is `none` when the Python
    code raises IndexError, `some none` when it returns None, and
    `some (some r)` when it returns a dict.
-/

/-- One OHLCV observation; the field `open_` embeds the dict key "open"
(`open` is a Lean keyword). -/
structure PricePoint where
  open_ : ℚ
  high : ℚ
  low : ℚ
  close : ℚ
  volume : ℕ
deriving DecidableEq

/-- Data-model precondition on one point: positive prices with
`low ≤ {open, close} ≤ high` (volume is a ℕ by type). -/
def wfPoint (p : PricePoint) : Prop :=
  0 < p.low ∧ p.low ≤ p.open_ ∧ p.open_ ≤ p.high ∧ p.low ≤ p.close ∧ p.close ≤ p.high

instance (p : PricePoint) : Decidable (wfPoint p) := by
  unfold wfPoint; infer_instance

/-- A well-formed price series: every point satisfies `wfPoint`. -/
def wfSeries (l : List PricePoint) : Prop := ∀ p ∈ l, wfPoint p

instance (l : List PricePoint) : Decidable (wfSeries l) :=
  List.decidableBAll _ l

/-- Python list indexing `l[i]` with negative-index wraparound; `none` is an
IndexError. -/
def pyIdx {α : Type} (l : List α) (i : ℤ) : Option α :=
  if i < 0 then
    if i + l.length < 0 then none else l.get? (i + l.length).toNat
  else l.get? i.toNat

/-- Total version of `pyIdx` for the call sites whose guards keep every index
in range (out-of-range reads default to `d` and are unreachable there). -/
def pyAt {α : Type} (l : List α) (i : ℤ) (d : α) : α :=
  (pyIdx l i).getD d

/-- Python slice `l[-k:]` (the trailing `k` elements, or all of `l` when
`k ≥ len(l)`). -/
def pyTail {α : Type} (l : List α) (k : ℕ) : List α :=
  l.drop (l.length - k)

/-- Python `max` on a (nonempty) list; `pyMax [] = 0` is unreachable at every
use site. -/
def pyMax : List ℚ → ℚ
  | [] => 0
  | x :: xs => xs.foldl max x

/-- Python `min` on a (nonempty) list. -/
def pyMin : List ℚ → ℚ
  | [] => 0
  | x :: xs => xs.foldl min x

/-- Python `int(x)` (truncation toward zero). -/
def pyTrunc (q : ℚ) : ℤ :=
  if q < 0 then -⌊-q⌋ else ⌊q⌋

/-- Python `round(x, n)` modelled as rounding to the nearest multiple of
`1/m` (`m = 10^n`). -/
def pyRoundTo (m : ℕ) (q : ℚ) : ℚ :=
  (⌊q * m + 1 / 2⌋ : ℚ) / m

/-- `round(x, 2)` — price-scale values. -/
def pyRound2 (q : ℚ) : ℚ := pyRoundTo 100 q

/-- `round(x, 1)` — percentage/oscillator-scale values. -/
def pyRound1 (q : ℚ) : ℚ := pyRoundTo 10 q

/-- `round(x, 4)` — ratio-scale values. -/
def pyRound4 (q : ℚ) : ℚ := pyRoundTo 10000 q

/-- The series `closes = [p["close"] for p in prices]`. -/
def closesOf (prices : List PricePoint) : List ℚ := prices.map (·.close)

/-- The last close `closes[-1]` (the "current" price). -/
def currentClose (prices : List PricePoint) : ℚ := pyAt (closesOf prices) (-1) 0

/- ------------------------------------------------------------------
   _ema: exponential moving average (technicals.py lines 24-32)
   ------------------------------------------------------------------ -/

/-- The loop `for val in data[1:]: result.append((val - result[-1]) * multiplier + result[-1])`,
carrying `result[-1]` as `prev`. -/
def emaLoop (multiplier : ℚ) (prev : ℚ) : List ℚ → List ℚ
  | [] => []
  | val :: rest =>
      let nxt := (val - prev) * multiplier + prev
      nxt :: emaLoop multiplier nxt rest

/-- `_ema(data, span)`: EMA series seeded at the first raw value. -/
def _ema (data : List ℚ) (span : ℕ) : List ℚ :=
  match data with
  | [] => []
  | d0 :: rest => d0 :: emaLoop (2 / ((span : ℚ) + 1)) d0 rest

/- ------------------------------------------------------------------
   _compute_rsi: Wilder RSI (technicals.py lines 60-87)
   ------------------------------------------------------------------ -/

/-- `deltas = [closes[i] - closes[i-1] for i in range(1, len(closes))]`. -/
def rsiDeltas : List ℚ → List ℚ
  | c0 :: c1 :: rest => (c1 - c0) :: rsiDeltas (c1 :: rest)
  | _ => []

/-- Seed averages: simple mean of the positive / negative parts of the first
`period` deltas. -/
def rsiInitAvgs (period : ℕ) (deltas : List ℚ) : ℚ × ℚ :=
  (((deltas.take period).map fun d => max d 0).sum / period,
   ((deltas.take period).map fun d => max (-d) 0).sum / period)

/-- One step of Wilder smoothing applied to the (gain, loss) pair. -/
def wilderStep (period : ℕ) (avgs : ℚ × ℚ) (d : ℚ) : ℚ × ℚ :=
  ((avgs.1 * ((period : ℚ) - 1) + max d 0) / period,
   (avgs.2 * ((period : ℚ) - 1) + max (-d) 0) / period)

/-- Final `(avg_gain, avg_loss)` after the smoothing loop over
`deltas[period:]`. -/
def rsiAvgs (period : ℕ) (deltas : List ℚ) : ℚ × ℚ :=
  (deltas.drop period).foldl (wilderStep period) (rsiInitAvgs period deltas)

/-- `_compute_rsi(prices, period)`. -/
def _compute_rsi (prices : List PricePoint) (period : ℕ) : Option ℚ :=
  let closes := closesOf prices
  if closes.length < period + 1 then none
  else
    let avgs := rsiAvgs period (rsiDeltas closes)
    if avgs.2 = 0 then some 100
    else some (100 - 100 / (1 + avgs.1 / avgs.2))

/-- Concrete 15-point series used to instantiate `claim_c4_rsi`. -/
def rsiWitnessSeries : List PricePoint :=
  List.replicate 15 ⟨100, 100, 100, 100, 1000⟩

/- ------------------------------------------------------------------
   _compute_macd: MACD 12/26/9 (technicals.py lines 94-124)
   ------------------------------------------------------------------ -/

/-- `macd_line = [a - b for a, b in zip(ema12, ema26)]`. -/
def macd_line (closes : List ℚ) : List ℚ :=
  List.zipWith (· - ·) (_ema closes 12) (_ema closes 26)

/-- `signal_line = _ema(macd_line, 9)`. -/
def signal_line (closes : List ℚ) : List ℚ := _ema (macd_line closes) 9

/-- Crossover classification from the last two points of the two lines. -/
def macdCrossover (ml sl : List ℚ) : String :=
  if 2 ≤ ml.length ∧ 2 ≤ sl.length then
    if pyAt ml (-2) 0 - pyAt sl (-2) 0 ≤ 0 ∧ 0 < pyAt ml (-1) 0 - pyAt sl (-1) 0 then
      "BULLISH crossover (MACD crossing above signal)"
    else if 0 ≤ pyAt ml (-2) 0 - pyAt sl (-2) 0 ∧ pyAt ml (-1) 0 - pyAt sl (-1) 0 < 0 then
      "BEARISH crossover (MACD crossing below signal)"
    else "no recent crossover"
  else "insufficient data for crossover detection"

/-- Result dict of `_compute_macd`; the first three fields are rounded to 4
decimal places as in the source. -/
structure MacdResult where
  macd_line : ℚ
  signal_line : ℚ
  histogram : ℚ
  crossover : String
deriving DecidableEq

/-- `_compute_macd(prices)`. -/
def _compute_macd (prices : List PricePoint) : Option MacdResult :=
  if (closesOf prices).length < 35 then none
  else
    some ⟨pyRound4 (pyAt (macd_line (closesOf prices)) (-1) 0),
          pyRound4 (pyAt (signal_line (closesOf prices)) (-1) 0),
          pyRound4 (pyAt (macd_line (closesOf prices)) (-1) 0 -
            pyAt (signal_line (closesOf prices)) (-1) 0),
          macdCrossover (macd_line (closesOf prices)) (signal_line (closesOf prices))⟩

/-- Concrete 35-point series used to instantiate `claim_c5_macd`. -/
def macdWitnessSeries : List PricePoint :=
  List.replicate 35 ⟨100, 100, 100, 100, 1000⟩

/- ------------------------------------------------------------------
   _compute_bollinger_bands (technicals.py lines 131-173)
   ------------------------------------------------------------------ -/

/-- `recent = closes[-window:]`. -/
def bollWindow (closes : List ℚ) (window : ℕ) : List ℚ := pyTail closes window

/-- `middle = sum(recent) / window`. -/
def bollMiddle (closes : List ℚ) (window : ℕ) : ℚ :=
  (bollWindow closes window).sum / window

/-- `std_dev = (sum((x - middle) ** 2 for x in recent) / window) ** 0.5`. -/
def bollStd (closes : List ℚ) (window : ℕ) : ℚ :=
  Rat.sqrt (((bollWindow closes window).map
    fun x => (x - bollMiddle closes window) ^ 2).sum / window)

/-- `upper = middle + num_std * std_dev`. -/
def bollUpper (closes : List ℚ) (window : ℕ) (num_std : ℚ) : ℚ :=
  bollMiddle closes window + num_std * bollStd closes window

/-- `lower = middle - num_std * std_dev`. -/
def bollLower (closes : List ℚ) (window : ℕ) (num_std : ℚ) : ℚ :=
  bollMiddle closes window - num_std * bollStd closes window

/-- `bandwidth = (upper - lower) / middle if middle != 0 else 0`. -/
def bollBandwidth (closes : List ℚ) (window : ℕ) (num_std : ℚ) : ℚ :=
  if bollMiddle closes window = 0 then 0
  else (bollUpper closes window num_std - bollLower closes window num_std) /
    bollMiddle closes window

/-- `pct_b = (current_price - lower) / (upper - lower) if (upper - lower) != 0 else 0.5`. -/
def bollPctB (closes : List ℚ) (window : ℕ) (num_std : ℚ) : ℚ :=
  if bollUpper closes window num_std - bollLower closes window num_std = 0 then 1 / 2
  else (pyAt closes (-1) 0 - bollLower closes window num_std) /
    (bollUpper closes window num_std - bollLower closes window num_std)

/-- Rolling bandwidths `bw_history` over every window-sized slice
(`for i in range(window, len(closes) + 1)`). -/
def bollBwHistory (closes : List ℚ) (window : ℕ) (num_std : ℚ) : List ℚ :=
  (List.range' window (closes.length + 1 - window)).map fun i =>
    ((fun w => ((fun m =>
        if m = 0 then 0
        else (2 * num_std * Rat.sqrt ((w.map fun x => (x - m) ^ 2).sum / window)) / m)
      (w.sum / window))) ((closes.take i).drop (i - window)))

/-- Squeeze flag: current bandwidth below 0.75 of the historical average,
only when at least `2 * window` closes exist. -/
def bollSqueeze (closes : List ℚ) (window : ℕ) (num_std : ℚ) : Bool :=
  if window * 2 ≤ closes.length then
    decide (bollBandwidth closes window num_std <
      (if bollBwHistory closes window num_std ≠ [] then
        (bollBwHistory closes window num_std).sum /
          (bollBwHistory closes window num_std).length
      else bollBandwidth closes window num_std) * (3 / 4))
  else false

/-- Result dict of `_compute_bollinger_bands` with the source's rounding. -/
structure BollingerResult where
  upper : ℚ
  middle : ℚ
  lower : ℚ
  bandwidth : ℚ
  pct_b : ℚ
  squeeze : Bool
deriving DecidableEq

/-- `_compute_bollinger_bands(prices, window, num_std)`. -/
def _compute_bollinger_bands (prices : List PricePoint) (window : ℕ) (num_std : ℚ) :
    Option BollingerResult :=
  if (closesOf prices).length < window then none
  else
    some ⟨pyRound2 (bollUpper (closesOf prices) window num_std),
          pyRound2 (bollMiddle (closesOf prices) window),
          pyRound2 (bollLower (closesOf prices) window num_std),
          pyRound4 (bollBandwidth (closesOf prices) window num_std),
          pyRound2 (bollPctB (closesOf prices) window num_std),
          bollSqueeze (closesOf prices) window num_std⟩

/-- Concrete 20-point series used to instantiate `claim_c6_bollinger`. -/
def bollWitnessSeries : List PricePoint :=
  List.replicate 20 ⟨100, 100, 100, 100, 1000⟩

/- ------------------------------------------------------------------
   Indexing and min/max helper lemmas
   ------------------------------------------------------------------ -/

/-- Default point for the total indexing helper (unreachable under guards). -/
def dfltPoint : PricePoint := ⟨0, 0, 0, 0, 0⟩

/- ------------------------------------------------------------------
   _compute_stochastic (technicals.py lines 214-239)
   ------------------------------------------------------------------ -/

/-- `window = prices[i - k_period + 1 : i + 1]`. -/
def stochWindow (prices : List PricePoint) (k_period i : ℕ) : List PricePoint :=
  (prices.take (i + 1)).drop (i + 1 - k_period)

/-- One `%K` value: `((close - low) / (high - low)) * 100`, or `50.0` on a
flat window. -/
def stochKAt (prices : List PricePoint) (k_period i : ℕ) : ℚ :=
  if pyMax ((stochWindow prices k_period i).map (·.high)) -
      pyMin ((stochWindow prices k_period i).map (·.low)) = 0 then 50
  else ((pyAt prices (i : ℤ) dfltPoint).close -
      pyMin ((stochWindow prices k_period i).map (·.low))) /
    (pyMax ((stochWindow prices k_period i).map (·.high)) -
      pyMin ((stochWindow prices k_period i).map (·.low))) * 100

/-- `k_values` over `for i in range(k_period - 1, len(prices))`. -/
def stochKValues (prices : List PricePoint) (k_period : ℕ) : List ℚ :=
  (List.range prices.length).filterMap fun i =>
    if k_period - 1 ≤ i then some (stochKAt prices k_period i) else none

/-- `pct_d = sum(k_values[-d_period:]) / d_period if len(k_values) >= d_period else pct_k`. -/
def stochPctD (prices : List PricePoint) (k_period d_period : ℕ) : ℚ :=
  if d_period ≤ (stochKValues prices k_period).length then
    (pyTail (stochKValues prices k_period) d_period).sum / d_period
  else pyAt (stochKValues prices k_period) (-1) 0

/-- Result dict of `_compute_stochastic` (both fields rounded to 1 decimal). -/
structure StochResult where
  pct_k : ℚ
  pct_d : ℚ
deriving DecidableEq

/-- `_compute_stochastic(prices, k_period, d_period)`. -/
def _compute_stochastic (prices : List PricePoint) (k_period d_period : ℕ) :
    Option StochResult :=
  if prices.length < k_period + d_period then none
  else some ⟨pyRound1 (pyAt (stochKValues prices k_period) (-1) 0),
             pyRound1 (stochPctD prices k_period d_period)⟩

/-- Concrete 17-point well-formed series used to instantiate
`claim_c10_stochastic`. -/
def stochWitnessSeries : List PricePoint :=
  List.replicate 17 ⟨100, 105, 95, 102, 1000⟩

/- ------------------------------------------------------------------
   _compute_obv (technicals.py lines 246-288)
   ------------------------------------------------------------------ -/

/-- The OBV loop: add volume on up days, subtract on down days, keep on ties;
`prev` is `prices[i-1]`. -/
def obvLoop (obv : ℤ) : PricePoint → List PricePoint → List ℤ
  | _, [] => []
  | prev, p :: rest =>
      if prev.close < p.close then (obv + p.volume) :: obvLoop (obv + p.volume) p rest
      else if p.close < prev.close then (obv - p.volume) :: obvLoop (obv - p.volume) p rest
      else obv :: obvLoop obv p rest

/-- `obv_series`, seeded with `[0]`. -/
def obvSeries (prices : List PricePoint) : List ℤ :=
  match prices with
  | [] => [0]
  | p :: rest => 0 :: obvLoop 0 p rest

/-- `obv_slope = (obv_20[-1] - obv_20[0]) / 20 if len(obv_20) >= 20 else 0`. -/
def obvSlope (prices : List PricePoint) : ℚ :=
  if 20 ≤ (pyTail (obvSeries prices) 20).length then
    ((pyAt (pyTail (obvSeries prices) 20) (-1) 0 -
      pyAt (pyTail (obvSeries prices) 20) 0 0 : ℤ) : ℚ) / 20
  else 0

/-- `price_slope = (price_20[-1] - price_20[0]) / 20 if len(price_20) >= 20 else 0`. -/
def priceSlope (prices : List PricePoint) : ℚ :=
  if 20 ≤ (pyTail (closesOf prices) 20).length then
    (pyAt (pyTail (closesOf prices) 20) (-1) 0 -
      pyAt (pyTail (closesOf prices) 20) 0 0) / 20
  else 0

/-- Divergence classification from the OBV and price slopes. -/
def obvDivergence (os ps : ℚ) : String :=
  if 0 < os ∧ ps < 0 then
    "BULLISH divergence (OBV rising while price falling — accumulation)"
  else if os < 0 ∧ 0 < ps then
    "BEARISH divergence (OBV falling while price rising — distribution)"
  else if 0 < os ∧ 0 < ps then "Confirmed uptrend (both price and OBV rising)"
  else if os < 0 ∧ ps < 0 then "Confirmed downtrend (both price and OBV falling)"
  else "No clear divergence"

/-- Result dict of `_compute_obv`. -/
structure ObvResult where
  obv : ℤ
  trend : String
  divergence : String
deriving DecidableEq

/-- `_compute_obv(prices)`. -/
def _compute_obv (prices : List PricePoint) : Option ObvResult :=
  if prices.length < 20 then none
  else
    some ⟨pyAt (obvSeries prices) (-1) 0,
          if 0 < obvSlope prices then "rising"
          else if obvSlope prices < 0 then "falling" else "flat",
          obvDivergence (obvSlope prices) (priceSlope prices)⟩

/- ------------------------------------------------------------------
   _analyze_volume (technicals.py lines 295-329), bounds-checked
   ------------------------------------------------------------------ -/

/-- `volumes = [p["volume"] for p in prices]`. -/
def volumesOf (prices : List PricePoint) : List ℕ := prices.map (·.volume)

/-- `avg_volume = sum(volumes[-window:]) / window`. -/
def avgVolume (prices : List PricePoint) (window : ℕ) : ℚ :=
  ((pyTail (volumesOf prices) window).sum : ℚ) / window

/-- `recent_avg = sum(volumes[-5:]) / 5`. -/
def recentAvgVolume (prices : List PricePoint) : ℚ :=
  ((pyTail (volumesOf prices) 5).sum : ℚ) / 5

/-- `relative_volume = recent_avg / avg_volume if avg_volume > 0 else 1.0`. -/
def relativeVolume (prices : List PricePoint) (window : ℕ) : ℚ :=
  if 0 < avgVolume prices window then recentAvgVolume prices / avgVolume prices window
  else 1

/-- Mean of a volume partition, `0` when the partition is empty. -/
def listAvgN (l : List ℕ) : ℚ :=
  if l ≠ [] then ((l.sum : ℚ)) / l.length else 0

/-- Character classification: accumulation when up-day volume exceeds down-day
volume by more than 30%, and symmetrically. -/
def volumeCharacter (avg_up_vol avg_down_vol : ℚ) : String :=
  if avg_down_vol * (13 / 10) < avg_up_vol then "Accumulation (heavier volume on up days)"
  else if avg_up_vol * (13 / 10) < avg_down_vol then
    "Distribution (heavier volume on down days)"
  else "Balanced (similar volume on up and down days)"

/-- The loop `for i in range(-window, 0)` partitioning up-day / down-day
volumes, with bounds-checked indexing (`none` = IndexError on `prices[i]` or
`prices[i - 1]`). -/
def upDownLoop (prices : List PricePoint) : List ℤ → Option (List ℕ × List ℕ)
  | [] => some ([], [])
  | i :: rest =>
      match pyIdx prices i, pyIdx prices (i - 1) with
      | some p, some q =>
          match upDownLoop prices rest with
          | some (ups, downs) =>
              if q.close < p.close then some (p.volume :: ups, downs)
              else if p.close < q.close then some (ups, p.volume :: downs)
              else some (ups, downs)
          | none => none
      | _, _ => none

/-- Result dict of `_analyze_volume` (the two averages pass through `int()`). -/
structure VolumeResult where
  avg_20d : ℤ
  recent_5d_avg : ℤ
  relative_volume : ℚ
  character : String
deriving DecidableEq

/-- `_analyze_volume(prices, window)`: `none` models a raised IndexError,
`some none` the Python `None`, `some (some r)` a returned dict. -/
def _analyze_volume (prices : List PricePoint) (window : ℕ) :
    Option (Option VolumeResult) :=
  if prices.length < window then some none
  else
    match upDownLoop prices ((List.range window).map fun k => -(window : ℤ) + k) with
    | none => none
    | some (ups, downs) =>
        some (some ⟨pyTrunc (avgVolume prices window),
                    pyTrunc (recentAvgVolume prices),
                    pyRound2 (relativeVolume prices window),
                    volumeCharacter (listAvgN ups) (listAvgN downs)⟩)

/- ------------------------------------------------------------------
   Concrete flat scenario (claims C9, C1, C2)
   ------------------------------------------------------------------ -/

/-- Twenty flat periods at price 100 with volume 1000. -/
def flatSeries : List PricePoint :=
  List.replicate 20 ⟨100, 100, 100, 100, 1000⟩

/-- Twenty well-formed periods used to exhibit the `_analyze_volume` fault for
claim C2. -/
def volSeries : List PricePoint :=
  List.replicate 20 ⟨50, 55, 45, 52, 700⟩

/- ------------------------------------------------------------------
   _compute_fibonacci (technicals.py lines 409-451)
   ------------------------------------------------------------------ -/

/-- `swing_high = max(highs)`. -/
def swingHigh (prices : List PricePoint) : ℚ := pyMax (prices.map (·.high))

/-- `swing_low = min(lows)`. -/
def swingLow (prices : List PricePoint) : ℚ := pyMin (prices.map (·.low))

/-- The ordered label→price mapping of the standard retracement levels,
each rounded to 2 decimals as in the source. -/
def fibLevels (swing_high swing_low : ℚ) : List (String × ℚ) :=
  [("0.0% (high)", pyRound2 swing_high),
   ("23.6%", pyRound2 (swing_high - (236 / 1000) * (swing_high - swing_low))),
   ("38.2%", pyRound2 (swing_high - (382 / 1000) * (swing_high - swing_low))),
   ("50.0%", pyRound2 (swing_high - (500 / 1000) * (swing_high - swing_low))),
   ("61.8%", pyRound2 (swing_high - (618 / 1000) * (swing_high - swing_low))),
   ("78.6%", pyRound2 (swing_high - (786 / 1000) * (swing_high - swing_low))),
   ("100.0% (low)", pyRound2 swing_low)]

/-- The nearest-level loop (`nearest_dist` starts at infinity, modelled by the
`none` accumulator; a strictly smaller distance replaces the best). -/
def fibNearestAcc (current : ℚ) :
    List (String × ℚ) → Option (String × ℚ) → Option (String × ℚ)
  | [], best => best
  | lv :: rest, none => fibNearestAcc current rest (some lv)
  | lv :: rest, some b =>
      if |current - lv.2| < |current - b.2| then fibNearestAcc current rest (some lv)
      else fibNearestAcc current rest (some b)

/-- Result dict of `_compute_fibonacci`. -/
structure FibResult where
  levels : List (String × ℚ)
  nearest_level : Option String
  swing_high : ℚ
  swing_low : ℚ
deriving DecidableEq

/-- `_compute_fibonacci(prices)`. -/
def _compute_fibonacci (prices : List PricePoint) : Option FibResult :=
  if prices.length < 20 then none
  else if swingHigh prices = swingLow prices then none
  else
    some ⟨fibLevels (swingHigh prices) (swingLow prices),
          (fibNearestAcc (currentClose prices)
            (fibLevels (swingHigh prices) (swingLow prices)) none).map Prod.fst,
          pyRound2 (swingHigh prices),
          pyRound2 (swingLow prices)⟩

/-- Concrete 20-point series with a non-degenerate swing range used to
instantiate `claim_c8_fibonacci`. -/
def fibWitnessSeries : List PricePoint :=
  (⟨105, 110, 95, 100, 500⟩ : PricePoint) :: List.replicate 19 ⟨100, 102, 98, 101, 600⟩

/- ------------------------------------------------------------------
   _find_support_resistance (technicals.py lines 336-402)
   ------------------------------------------------------------------ -/

/-- `highs = [p["high"] for p in prices]`. -/
def highsOf (prices : List PricePoint) : List ℚ := prices.map (·.high)

/-- `lows = [p["low"] for p in prices]`. -/
def lowsOf (prices : List PricePoint) : List ℚ := prices.map (·.low)

/-- Pivot highs: `highs[i]` for `i in range(5, len - 5)` whenever `highs[i]`
equals the max of `highs[i-5 : i+6]`. -/
def pivotHighs (prices : List PricePoint) : List ℚ :=
  (List.range prices.length).filterMap fun i =>
    if 5 ≤ i ∧ i + 5 < prices.length ∧
        pyAt (highsOf prices) (i : ℤ) 0 =
          pyMax (((highsOf prices).take (i + 5 + 1)).drop (i - 5))
    then some (pyAt (highsOf prices) (i : ℤ) 0) else none

/-- Pivot lows: symmetric to `pivotHighs` with `min`. -/
def pivotLows (prices : List PricePoint) : List ℚ :=
  (List.range prices.length).filterMap fun i =>
    if 5 ≤ i ∧ i + 5 < prices.length ∧
        pyAt (lowsOf prices) (i : ℤ) 0 =
          pyMin (((lowsOf prices).take (i + 5 + 1)).drop (i - 5))
    then some (pyAt (lowsOf prices) (i : ℤ) 0) else none

/-- Mean of one cluster. -/
def pyMean (l : List ℚ) : ℚ := l.sum / l.length

/-- The sequential clustering loop over the sorted levels; `current_cluster`
is nonempty at every call site. -/
def clusterAux (threshold : ℚ) : List ℚ → List ℚ → List (List ℚ)
  | current_cluster, [] => [current_cluster]
  | current_cluster, level :: rest =>
      if |level - current_cluster.getLastD 0| / current_cluster.getLastD 0 < threshold then
        clusterAux threshold (current_cluster ++ [level]) rest
      else
        current_cluster :: clusterAux threshold [level] rest

/-- `cluster_levels(levels, threshold)`: sort ascending, merge sequentially
within the relative threshold, return cluster means. -/
def cluster_levels (levels : List ℚ) (threshold : ℚ) : List ℚ :=
  if levels = [] then []
  else
    (clusterAux threshold [(List.insertionSort (· ≤ ·) levels).headD 0]
      (List.insertionSort (· ≤ ·) levels).tail).map pyMean

/-- `resistance_levels = [r for r in cluster_levels(pivot_highs) if r > current][:num_levels]`. -/
def resistance_levels (prices : List PricePoint) (num_levels : ℕ) : List ℚ :=
  ((cluster_levels (pivotHighs prices) (3 / 200)).filter
    fun r => decide (currentClose prices < r)).take num_levels

/-- `support_levels = [s for s in reversed(cluster_levels(pivot_lows)) if s < current][:num_levels]`. -/
def support_levels (prices : List PricePoint) (num_levels : ℕ) : List ℚ :=
  ((cluster_levels (pivotLows prices) (3 / 200)).reverse.filter
    fun s => decide (s < currentClose prices)).take num_levels

/-- `all_highs = max(highs) if highs else None` (and the `lows` analogue). -/
def allHighs (prices : List PricePoint) : Option ℚ :=
  if highsOf prices = [] then none else some (pyMax (highsOf prices))

def allLows (prices : List PricePoint) : Option ℚ :=
  if lowsOf prices = [] then none else some (pyMin (lowsOf prices))

/-- `"period_high": round(all_highs, 2) if all_highs else None` — Python
truthiness: present iff `all_highs` is non-None and nonzero. -/
def periodHigh (prices : List PricePoint) : Option ℚ :=
  match allHighs prices with
  | some hi => if hi = 0 then none else some (pyRound2 hi)
  | none => none

def periodLow (prices : List PricePoint) : Option ℚ :=
  match allLows prices with
  | some lo => if lo = 0 then none else some (pyRound2 lo)
  | none => none

/-- `pct_from_high = ((current - all_highs) / all_highs * 100) if all_highs
else None`, then rounded to 1 decimal when not None. -/
def pctFromHigh (prices : List PricePoint) : Option ℚ :=
  match allHighs prices with
  | some hi =>
      if hi = 0 then none
      else some (pyRound1 ((currentClose prices - hi) / hi * 100))
  | none => none

def pctFromLow (prices : List PricePoint) : Option ℚ :=
  match allLows prices with
  | some lo =>
      if lo = 0 then none
      else some (pyRound1 ((currentClose prices - lo) / lo * 100))
  | none => none

/-- Result dict of `_find_support_resistance`. -/
structure SRResult where
  resistance : List ℚ
  support : List ℚ
  period_high : Option ℚ
  period_low : Option ℚ
  pct_from_high : Option ℚ
  pct_from_low : Option ℚ
deriving DecidableEq

/-- `_find_support_resistance(prices, num_levels)`. -/
def _find_support_resistance (prices : List PricePoint) (num_levels : ℕ) :
    Option SRResult :=
  if prices.length < 20 then none
  else
    some ⟨(resistance_levels prices num_levels).map pyRound2,
          (support_levels prices num_levels).map pyRound2,
          periodHigh prices,
          periodLow prices,
          pctFromHigh prices,
          pctFromLow prices⟩

/-- Concrete well-formed 20-point series used to instantiate
`claim_c7_support_resistance`. -/
def srWitnessSeries : List PricePoint :=
  List.replicate 20 ⟨10, 12, 9, 11, 300⟩

theorem emaLoop_length (m p : ℚ) (l : List ℚ) : (emaLoop m p l).length = l.length := by
  induction l generalizing p with
  | nil => rfl
  | cons v rest ih => simp [emaLoop, ih]

theorem _ema_length (data : List ℚ) (span : ℕ) : (_ema data span).length = data.length := by
  cases data with
  | nil => rfl
  | cons d0 rest => simp [_ema, emaLoop_length]

theorem _ema_head (data : List ℚ) (span : ℕ) : (_ema data span).head? = data.head? := by
  cases data with
  | nil => rfl
  | cons d0 rest => rfl

theorem emaLoop_get (m p : ℚ) (l : List ℚ) (i : ℕ) :
    (emaLoop m p l).get? (i + 1) =
      (l.get? (i + 1)).bind fun v =>
        ((emaLoop m p l).get? i).map fun e => (v - e) * m + e := by
  induction l generalizing p i with
  | nil => simp [emaLoop]
  | cons v rest ih =>
      cases i with
      | zero =>
          cases rest with
          | nil => simp [emaLoop]
          | cons w rest' => simp [emaLoop]
      | succ j =>
          simpa [emaLoop] using ih ((v - p) * m + p) j

/-- The defining recurrence of `_ema`, phrased with `get?` so that it is total:
`ema[i+1] = (data[i+1] - ema[i]) * multiplier + ema[i]`. -/
theorem _ema_rec (data : List ℚ) (span : ℕ) (i : ℕ) :
    (_ema data span).get? (i + 1) =
      (data.get? (i + 1)).bind fun v =>
        ((_ema data span).get? i).map fun e => (v - e) * (2 / ((span : ℚ) + 1)) + e := by
  cases data with
  | nil => simp [_ema]
  | cons d0 rest =>
      cases i with
      | zero =>
          cases rest with
          | nil => simp [_ema, emaLoop]
          | cons w rest' => simp [_ema, emaLoop]
      | succ j =>
          simpa [_ema] using emaLoop_get (2 / ((span : ℚ) + 1)) d0 rest j

theorem rsiInitAvgs_nonneg (period : ℕ) (deltas : List ℚ) :
    0 ≤ (rsiInitAvgs period deltas).1 ∧ 0 ≤ (rsiInitAvgs period deltas).2 := by
  constructor <;>
    exact div_nonneg
      (List.sum_nonneg (by
        intro x hx
        rcases List.mem_map.mp hx with ⟨d, _, rfl⟩
        exact le_max_right _ _))
      (Nat.cast_nonneg _)

theorem rsiFold_nonneg (period : ℕ) (l : List ℚ) :
    ∀ init : ℚ × ℚ, 1 ≤ period → 0 ≤ init.1 → 0 ≤ init.2 →
      0 ≤ (l.foldl (wilderStep period) init).1 ∧
        0 ≤ (l.foldl (wilderStep period) init).2 := by
  induction l with
  | nil => intro init _ h1 h2; exact ⟨h1, h2⟩
  | cons d rest ih =>
      intro init hp h1 h2
      have hpq : (0 : ℚ) ≤ (period : ℚ) - 1 := by
        have : (1 : ℚ) ≤ (period : ℚ) := by exact_mod_cast hp
        linarith
      refine ih _ hp ?_ ?_
      · exact div_nonneg (by positivity) (Nat.cast_nonneg _)
      · exact div_nonneg (by positivity) (Nat.cast_nonneg _)

theorem rsiAvgs_nonneg (period : ℕ) (hp : 1 ≤ period) (deltas : List ℚ) :
    0 ≤ (rsiAvgs period deltas).1 ∧ 0 ≤ (rsiAvgs period deltas).2 :=
  rsiFold_nonneg period _ _ hp (rsiInitAvgs_nonneg period deltas).1
    (rsiInitAvgs_nonneg period deltas).2

theorem rsiDeltas_pos : ∀ closes : List ℚ, List.Chain' (· < ·) closes →
    ∀ d ∈ rsiDeltas closes, 0 < d
  | [], _, d, hd => by simp [rsiDeltas] at hd
  | [_], _, d, hd => by simp [rsiDeltas] at hd
  | c0 :: c1 :: rest, h, d, hd => by
      rw [List.chain'_cons] at h
      rw [rsiDeltas, List.mem_cons] at hd
      rcases hd with rfl | hd
      · linarith [h.1]
      · exact rsiDeltas_pos (c1 :: rest) h.2 d hd

theorem rsiFold_loss_zero (period : ℕ) (l : List ℚ) :
    ∀ init : ℚ × ℚ, (∀ d ∈ l, 0 ≤ d) → init.2 = 0 →
      (l.foldl (wilderStep period) init).2 = 0 := by
  induction l with
  | nil => intro init _ h2; exact h2
  | cons d rest ih =>
      intro init hpos h2
      refine ih _ (fun x hx => hpos x (List.mem_cons_of_mem _ hx)) ?_
      have hd : 0 ≤ d := hpos d (List.mem_cons_self _ _)
      have : max (-d) 0 = 0 := max_eq_right (by linarith)
      simp [wilderStep, h2, this]

theorem rsiAvgs_loss_zero (period : ℕ) (deltas : List ℚ)
    (hpos : ∀ d ∈ deltas, 0 ≤ d) : (rsiAvgs period deltas).2 = 0 := by
  refine rsiFold_loss_zero period _ _ (fun d hd => hpos d (List.mem_of_mem_drop hd)) ?_
  have : ∀ x ∈ (deltas.take period).map (fun d => max (-d) 0), x = 0 := by
    intro x hx
    rcases List.mem_map.mp hx with ⟨d, hd, rfl⟩
    have : 0 ≤ d := hpos d (List.mem_of_mem_take hd)
    exact max_eq_right (by linarith)
  show (((deltas.take period).map fun d => max (-d) 0).sum / period) = 0
  rw [List.sum_eq_zero this]
  simp

/-- C3: the EMA primitive returns a sequence of the same length as its input,
seeded at the first raw value (`ema[0] = series[0]`), satisfying
`ema[i] = (series[i] - ema[i-1]) * (2/(span+1)) + ema[i-1]` for every
subsequent index; in particular `ema([5], 3) == [5]` and
`ema([1,2,3], 2)[0] == 1`. -/
theorem claim_c3_ema (data : List ℚ) (span : ℕ) :
    (_ema data span).length = data.length
    ∧ (_ema data span).head? = data.head?
    ∧ (∀ i : ℕ, (_ema data span).get? (i + 1) =
        (data.get? (i + 1)).bind fun v =>
          ((_ema data span).get? i).map fun e => (v - e) * (2 / ((span : ℚ) + 1)) + e)
    ∧ _ema [5] 3 = [5]
    ∧ (_ema [1, 2, 3] 2).get? 0 = some 1 :=
  ⟨_ema_length data span, _ema_head data span, _ema_rec data span,
    by decide, by decide⟩

/-- C4: for a series of length at least 15, RSI is present, lies in `[0, 100]`,
equals exactly 100 on strictly increasing closes, and otherwise (whenever the
smoothed average loss is nonzero) equals `100 - 100/(1 + avg_gain/avg_loss)`. -/
theorem claim_c4_rsi (prices : List PricePoint) (h : 15 ≤ prices.length) :
    ∃ r, _compute_rsi prices 14 = some r ∧ 0 ≤ r ∧ r ≤ 100
      ∧ (List.Chain' (· < ·) (closesOf prices) → r = 100)
      ∧ ((rsiAvgs 14 (rsiDeltas (closesOf prices))).2 ≠ 0 →
          r = 100 - 100 / (1 + (rsiAvgs 14 (rsiDeltas (closesOf prices))).1 /
            (rsiAvgs 14 (rsiDeltas (closesOf prices))).2)) := by
  have hlen : ¬ (closesOf prices).length < 14 + 1 := by
    simp only [closesOf, List.length_map]; omega
  set avgs := rsiAvgs 14 (rsiDeltas (closesOf prices)) with havgs
  by_cases hz : avgs.2 = 0
  · refine ⟨100, ?_, by norm_num, by norm_num, fun _ => rfl, fun hne => absurd hz hne⟩
    simp [_compute_rsi, hlen, ← havgs, hz]
  · have hnn := rsiAvgs_nonneg 14 (by norm_num) (rsiDeltas (closesOf prices))
    have hag : 0 ≤ avgs.1 := by rw [havgs]; exact hnn.1
    have hal : 0 < avgs.2 := by
      rcases lt_or_eq_of_le (by rw [havgs]; exact hnn.2 : 0 ≤ avgs.2) with h' | h'
      · exact h'
      · exact absurd h'.symm hz
    have hrs : 0 ≤ avgs.1 / avgs.2 := div_nonneg hag hal.le
    have h1 : (1 : ℚ) ≤ 1 + avgs.1 / avgs.2 := by linarith
    have hdivpos : 0 ≤ 100 / (1 + avgs.1 / avgs.2) := by positivity
    have hdivle : 100 / (1 + avgs.1 / avgs.2) ≤ 100 :=
      div_le_self (by norm_num) h1
    refine ⟨100 - 100 / (1 + avgs.1 / avgs.2), ?_, by linarith, by linarith, ?_, fun _ => rfl⟩
    · simp [_compute_rsi, hlen, ← havgs, hz]
    · intro hchain
      exact absurd (rsiAvgs_loss_zero 14 _ (fun d hd => (rsiDeltas_pos _ hchain d hd).le)) hz

theorem claim_c4_rsi_witness :
    ∃ r, _compute_rsi rsiWitnessSeries 14 = some r ∧ 0 ≤ r ∧ r ≤ 100
      ∧ (List.Chain' (· < ·) (closesOf rsiWitnessSeries) → r = 100)
      ∧ ((rsiAvgs 14 (rsiDeltas (closesOf rsiWitnessSeries))).2 ≠ 0 →
          r = 100 - 100 / (1 + (rsiAvgs 14 (rsiDeltas (closesOf rsiWitnessSeries))).1 /
            (rsiAvgs 14 (rsiDeltas (closesOf rsiWitnessSeries))).2)) :=
  claim_c4_rsi rsiWitnessSeries (by decide)

theorem macd_line_length (closes : List ℚ) :
    (macd_line closes).length = closes.length := by
  simp [macd_line, _ema_length]

theorem signal_line_length (closes : List ℚ) :
    (signal_line closes).length = closes.length := by
  simp [signal_line, _ema_length, macd_line_length]

/-- C5: at length ≥ 35 the MACD result is present, its crossover label is
determined solely by the signs of `macd_line - signal_line` at the last two
indices (≤0 to >0 bullish, ≥0 to <0 bearish, else no recent crossover),
and the insufficient-data branch is unreachable. -/
theorem claim_c5_macd (prices : List PricePoint) (h : 35 ≤ prices.length) :
    ∃ r, _compute_macd prices = some r
      ∧ r.crossover =
          (if pyAt (macd_line (closesOf prices)) (-2) 0 -
                pyAt (signal_line (closesOf prices)) (-2) 0 ≤ 0
              ∧ 0 < pyAt (macd_line (closesOf prices)) (-1) 0 -
                pyAt (signal_line (closesOf prices)) (-1) 0 then
            "BULLISH crossover (MACD crossing above signal)"
          else if 0 ≤ pyAt (macd_line (closesOf prices)) (-2) 0 -
                pyAt (signal_line (closesOf prices)) (-2) 0
              ∧ pyAt (macd_line (closesOf prices)) (-1) 0 -
                pyAt (signal_line (closesOf prices)) (-1) 0 < 0 then
            "BEARISH crossover (MACD crossing below signal)"
          else "no recent crossover")
      ∧ r.crossover ≠ "insufficient data for crossover detection" := by
  have hclen : (closesOf prices).length = prices.length := by
    simp [closesOf]
  have hml : 2 ≤ (macd_line (closesOf prices)).length := by
    rw [macd_line_length, hclen]; omega
  have hsl : 2 ≤ (signal_line (closesOf prices)).length := by
    rw [signal_line_length, hclen]; omega
  have hcross : macdCrossover (macd_line (closesOf prices)) (signal_line (closesOf prices)) =
      (if pyAt (macd_line (closesOf prices)) (-2) 0 -
            pyAt (signal_line (closesOf prices)) (-2) 0 ≤ 0
          ∧ 0 < pyAt (macd_line (closesOf prices)) (-1) 0 -
            pyAt (signal_line (closesOf prices)) (-1) 0 then
        "BULLISH crossover (MACD crossing above signal)"
      else if 0 ≤ pyAt (macd_line (closesOf prices)) (-2) 0 -
            pyAt (signal_line (closesOf prices)) (-2) 0
          ∧ pyAt (macd_line (closesOf prices)) (-1) 0 -
            pyAt (signal_line (closesOf prices)) (-1) 0 < 0 then
        "BEARISH crossover (MACD crossing below signal)"
      else "no recent crossover") := by
    rw [macdCrossover, if_pos ⟨hml, hsl⟩]
  refine ⟨⟨pyRound4 (pyAt (macd_line (closesOf prices)) (-1) 0),
      pyRound4 (pyAt (signal_line (closesOf prices)) (-1) 0),
      pyRound4 (pyAt (macd_line (closesOf prices)) (-1) 0 -
        pyAt (signal_line (closesOf prices)) (-1) 0),
      macdCrossover (macd_line (closesOf prices)) (signal_line (closesOf prices))⟩,
    ?_, ?_, ?_⟩
  · rw [_compute_macd, if_neg (by omega : ¬ (closesOf prices).length < 35)]
  · exact hcross
  · show macdCrossover _ _ ≠ _
    rw [hcross]
    split_ifs <;> decide

theorem claim_c5_macd_witness :
    ∃ r, _compute_macd macdWitnessSeries = some r
      ∧ r.crossover =
          (if pyAt (macd_line (closesOf macdWitnessSeries)) (-2) 0 -
                pyAt (signal_line (closesOf macdWitnessSeries)) (-2) 0 ≤ 0
              ∧ 0 < pyAt (macd_line (closesOf macdWitnessSeries)) (-1) 0 -
                pyAt (signal_line (closesOf macdWitnessSeries)) (-1) 0 then
            "BULLISH crossover (MACD crossing above signal)"
          else if 0 ≤ pyAt (macd_line (closesOf macdWitnessSeries)) (-2) 0 -
                pyAt (signal_line (closesOf macdWitnessSeries)) (-2) 0
              ∧ pyAt (macd_line (closesOf macdWitnessSeries)) (-1) 0 -
                pyAt (signal_line (closesOf macdWitnessSeries)) (-1) 0 < 0 then
            "BEARISH crossover (MACD crossing below signal)"
          else "no recent crossover")
      ∧ r.crossover ≠ "insufficient data for crossover detection" :=
  claim_c5_macd macdWitnessSeries (by decide)

theorem pyRoundTo_err (m : ℕ) (hm : 0 < m) (q : ℚ) :
    |pyRoundTo m q - q| ≤ 1 / (2 * m) := by
  have hmq : (0 : ℚ) < m := by exact_mod_cast hm
  have h1 : (⌊q * m + 1 / 2⌋ : ℚ) ≤ q * m + 1 / 2 := Int.floor_le _
  have h2 : q * m + 1 / 2 < ⌊q * m + 1 / 2⌋ + 1 := Int.lt_floor_add_one _
  have h3 : |(⌊q * m + 1 / 2⌋ : ℚ) - q * m| ≤ 1 / 2 := by
    rw [abs_le]; constructor <;> linarith
  have h4 : pyRoundTo m q - q = ((⌊q * m + 1 / 2⌋ : ℚ) - q * m) / m := by
    rw [pyRoundTo]; field_simp; ring
  rw [h4, abs_div, abs_of_pos hmq, ← div_div]
  exact (div_le_div_iff_of_pos_right hmq).mpr h3

/-- C6: at length ≥ 20 the Bollinger result is present, the bands are ordered
(`lower ≤ upper`), the returned (rounded) `pct_b` round-trips the current
close up to the applied rounding — `|lower + pct_b*(upper-lower) - close| ≤
(upper-lower)/200` — and in the degenerate `upper == lower` case `pct_b` is
exactly `0.5`. -/
theorem claim_c6_bollinger (prices : List PricePoint) (h : 20 ≤ prices.length) :
    ∃ r, _compute_bollinger_bands prices 20 2 = some r
      ∧ bollLower (closesOf prices) 20 2 ≤ bollUpper (closesOf prices) 20 2
      ∧ r.pct_b = pyRound2 (bollPctB (closesOf prices) 20 2)
      ∧ (bollUpper (closesOf prices) 20 2 ≠ bollLower (closesOf prices) 20 2 →
          |bollLower (closesOf prices) 20 2 +
              r.pct_b * (bollUpper (closesOf prices) 20 2 - bollLower (closesOf prices) 20 2) -
              currentClose prices| ≤
            (bollUpper (closesOf prices) 20 2 - bollLower (closesOf prices) 20 2) / 200)
      ∧ (bollUpper (closesOf prices) 20 2 = bollLower (closesOf prices) 20 2 →
          r.pct_b = 1 / 2) := by
  have hclen : (closesOf prices).length = prices.length := by simp [closesOf]
  have hstd : 0 ≤ bollStd (closesOf prices) 20 := Rat.sqrt_nonneg _
  have hord : bollLower (closesOf prices) 20 2 ≤ bollUpper (closesOf prices) 20 2 := by
    rw [bollLower, bollUpper]; linarith
  refine ⟨⟨pyRound2 (bollUpper (closesOf prices) 20 2),
      pyRound2 (bollMiddle (closesOf prices) 20),
      pyRound2 (bollLower (closesOf prices) 20 2),
      pyRound4 (bollBandwidth (closesOf prices) 20 2),
      pyRound2 (bollPctB (closesOf prices) 20 2),
      bollSqueeze (closesOf prices) 20 2⟩, ?_, hord, rfl, ?_, ?_⟩
  · rw [_compute_bollinger_bands, if_neg (by omega : ¬ (closesOf prices).length < 20)]
  · intro hne
    have hsub : bollUpper (closesOf prices) 20 2 - bollLower (closesOf prices) 20 2 ≠ 0 :=
      sub_ne_zero_of_ne hne
    have hsubpos : 0 < bollUpper (closesOf prices) 20 2 - bollLower (closesOf prices) 20 2 :=
      lt_of_le_of_ne (by linarith) (Ne.symm hsub)
    have hp : bollPctB (closesOf prices) 20 2 =
        (pyAt (closesOf prices) (-1) 0 - bollLower (closesOf prices) 20 2) /
          (bollUpper (closesOf prices) 20 2 - bollLower (closesOf prices) 20 2) := by
      rw [bollPctB, if_neg hsub]
    have hid : bollLower (closesOf prices) 20 2 +
        bollPctB (closesOf prices) 20 2 *
          (bollUpper (closesOf prices) 20 2 - bollLower (closesOf prices) 20 2) =
        currentClose prices := by
      rw [hp, div_mul_cancel₀ _ hsub, currentClose]; ring
    have herr : |pyRound2 (bollPctB (closesOf prices) 20 2) -
        bollPctB (closesOf prices) 20 2| ≤ 1 / 200 := by
      have := pyRoundTo_err 100 (by norm_num) (bollPctB (closesOf prices) 20 2)
      rw [pyRound2]
      calc |pyRoundTo 100 (bollPctB (closesOf prices) 20 2) -
          bollPctB (closesOf prices) 20 2| ≤ 1 / (2 * (100 : ℕ)) := this
        _ = 1 / 200 := by norm_num
    have hrw : bollLower (closesOf prices) 20 2 +
        pyRound2 (bollPctB (closesOf prices) 20 2) *
          (bollUpper (closesOf prices) 20 2 - bollLower (closesOf prices) 20 2) -
        currentClose prices =
        (pyRound2 (bollPctB (closesOf prices) 20 2) - bollPctB (closesOf prices) 20 2) *
          (bollUpper (closesOf prices) 20 2 - bollLower (closesOf prices) 20 2) := by
      rw [← hid]; ring
    rw [hrw, abs_mul, abs_of_pos hsubpos]
    calc |pyRound2 (bollPctB (closesOf prices) 20 2) - bollPctB (closesOf prices) 20 2| *
        (bollUpper (closesOf prices) 20 2 - bollLower (closesOf prices) 20 2)
        ≤ (1 / 200) * (bollUpper (closesOf prices) 20 2 - bollLower (closesOf prices) 20 2) :=
          mul_le_mul_of_nonneg_right herr (by linarith)
      _ = (bollUpper (closesOf prices) 20 2 - bollLower (closesOf prices) 20 2) / 200 := by
          ring
  · intro heq
    have hz : bollUpper (closesOf prices) 20 2 - bollLower (closesOf prices) 20 2 = 0 :=
      sub_eq_zero_of_eq heq
    show pyRound2 (bollPctB (closesOf prices) 20 2) = 1 / 2
    rw [bollPctB, if_pos hz, pyRound2, pyRoundTo]
    norm_num

theorem claim_c6_bollinger_witness :
    ∃ r, _compute_bollinger_bands bollWitnessSeries 20 2 = some r
      ∧ bollLower (closesOf bollWitnessSeries) 20 2 ≤ bollUpper (closesOf bollWitnessSeries) 20 2
      ∧ r.pct_b = pyRound2 (bollPctB (closesOf bollWitnessSeries) 20 2)
      ∧ (bollUpper (closesOf bollWitnessSeries) 20 2 ≠ bollLower (closesOf bollWitnessSeries) 20 2 →
          |bollLower (closesOf bollWitnessSeries) 20 2 +
              r.pct_b * (bollUpper (closesOf bollWitnessSeries) 20 2 -
                bollLower (closesOf bollWitnessSeries) 20 2) -
              currentClose bollWitnessSeries| ≤
            (bollUpper (closesOf bollWitnessSeries) 20 2 -
              bollLower (closesOf bollWitnessSeries) 20 2) / 200)
      ∧ (bollUpper (closesOf bollWitnessSeries) 20 2 = bollLower (closesOf bollWitnessSeries) 20 2 →
          r.pct_b = 1 / 2) :=
  claim_c6_bollinger bollWitnessSeries (by decide)

theorem pyIdx_nat {α : Type} (l : List α) (i : ℕ) : pyIdx l (i : ℤ) = l.get? i := by
  rw [pyIdx, if_neg (not_lt.mpr (Int.natCast_nonneg i))]
  simp

theorem pyAt_nat {α : Type} (l : List α) (i : ℕ) (d : α) :
    pyAt l (i : ℤ) d = (l.get? i).getD d := by
  rw [pyAt, pyIdx_nat]

theorem pyAt_neg_one_mem {α : Type} (l : List α) (d : α) (h : l ≠ []) :
    pyAt l (-1) d ∈ l := by
  have hlen : 0 < l.length := List.length_pos.mpr h
  have hcond : ¬ ((-1 : ℤ) + (l.length : ℤ) < 0) := by omega
  have hnat : ((-1 : ℤ) + (l.length : ℤ)).toNat = l.length - 1 := by omega
  rw [pyAt, pyIdx, if_pos (by norm_num : (-1 : ℤ) < 0), if_neg hcond, hnat]
  have hidx : l.length - 1 < l.length := by omega
  rw [List.get?_eq_get hidx]
  exact List.get_mem l _ hidx

theorem getD_mem_take_drop {α : Type} (l : List α) (i j : ℕ) (d : α)
    (hi : i < l.length) (hj : j ≤ i) :
    (l.get? i).getD d ∈ (l.take (i + 1)).drop j := by
  have h1 : ((l.take (i + 1)).drop j).get? (i - j) = l.get? i := by
    rw [List.get?_eq_getElem?, List.get?_eq_getElem?, List.getElem?_drop,
      List.getElem?_take_of_lt (by omega : j + (i - j) < i + 1)]
    congr 1
    omega
  rw [List.get?_eq_get hi, Option.getD_some]
  exact List.get?_mem (by rw [h1, List.get?_eq_get hi])

theorem foldl_min_le (xs : List ℚ) :
    ∀ a : ℚ, xs.foldl min a ≤ a ∧ ∀ x ∈ xs, xs.foldl min a ≤ x := by
  induction xs with
  | nil => intro a; exact ⟨le_refl a, by intro x hx; cases hx⟩
  | cons y ys ih =>
      intro a
      refine ⟨le_trans (ih (min a y)).1 (min_le_left a y), ?_⟩
      intro x hx
      rcases List.mem_cons.mp hx with rfl | hx
      · exact le_trans (ih (min a x)).1 (min_le_right a x)
      · exact (ih (min a y)).2 x hx

theorem le_foldl_max (xs : List ℚ) :
    ∀ a : ℚ, a ≤ xs.foldl max a ∧ ∀ x ∈ xs, x ≤ xs.foldl max a := by
  induction xs with
  | nil => intro a; exact ⟨le_refl a, by intro x hx; cases hx⟩
  | cons y ys ih =>
      intro a
      refine ⟨le_trans (le_max_left a y) (ih (max a y)).1, ?_⟩
      intro x hx
      rcases List.mem_cons.mp hx with rfl | hx
      · exact le_trans (le_max_right a x) (ih (max a x)).1
      · exact (ih (max a y)).2 x hx

theorem pyMin_le (l : List ℚ) (x : ℚ) (hx : x ∈ l) : pyMin l ≤ x := by
  cases l with
  | nil => cases hx
  | cons h t =>
      rcases List.mem_cons.mp hx with rfl | hx
      · exact (foldl_min_le t x).1
      · exact (foldl_min_le t h).2 x hx

theorem le_pyMax (l : List ℚ) (x : ℚ) (hx : x ∈ l) : x ≤ pyMax l := by
  cases l with
  | nil => cases hx
  | cons h t =>
      rcases List.mem_cons.mp hx with rfl | hx
      · exact (le_foldl_max t x).1
      · exact (le_foldl_max t h).2 x hx

theorem stochKAt_bounds (prices : List PricePoint) (hwf : wfSeries prices)
    (k_period i : ℕ) (hk : 1 ≤ k_period) (hi : i < prices.length) :
    0 ≤ stochKAt prices k_period i ∧ stochKAt prices k_period i ≤ 100 := by
  have hp : pyAt prices (i : ℤ) dfltPoint = (prices.get? i).getD dfltPoint :=
    pyAt_nat prices i dfltPoint
  have hpmem : pyAt prices (i : ℤ) dfltPoint ∈ prices := by
    rw [hp, List.get?_eq_get hi, Option.getD_some]
    exact List.get_mem prices i hi
  have hwfp : wfPoint (pyAt prices (i : ℤ) dfltPoint) := hwf _ hpmem
  have hwmem : pyAt prices (i : ℤ) dfltPoint ∈ stochWindow prices k_period i := by
    rw [hp, stochWindow]
    exact getD_mem_take_drop prices i (i + 1 - k_period) dfltPoint hi (by omega)
  have hlow : pyMin ((stochWindow prices k_period i).map (·.low)) ≤
      (pyAt prices (i : ℤ) dfltPoint).low :=
    pyMin_le _ _ (List.mem_map_of_mem _ hwmem)
  have hhigh : (pyAt prices (i : ℤ) dfltPoint).high ≤
      pyMax ((stochWindow prices k_period i).map (·.high)) :=
    le_pyMax _ _ (List.mem_map_of_mem _ hwmem)
  have hcl : pyMin ((stochWindow prices k_period i).map (·.low)) ≤
      (pyAt prices (i : ℤ) dfltPoint).close := le_trans hlow hwfp.2.2.2.1
  have hch : (pyAt prices (i : ℤ) dfltPoint).close ≤
      pyMax ((stochWindow prices k_period i).map (·.high)) :=
    le_trans hwfp.2.2.2.2 hhigh
  rw [stochKAt]
  by_cases hflat : pyMax ((stochWindow prices k_period i).map (·.high)) -
      pyMin ((stochWindow prices k_period i).map (·.low)) = 0
  · rw [if_pos hflat]; norm_num
  · rw [if_neg hflat]
    have hsub : 0 < pyMax ((stochWindow prices k_period i).map (·.high)) -
        pyMin ((stochWindow prices k_period i).map (·.low)) :=
      lt_of_le_of_ne (by linarith) (Ne.symm hflat)
    constructor
    · apply mul_nonneg _ (by norm_num)
      exact div_nonneg (by linarith) hsub.le
    · have hfrac : ((pyAt prices (i : ℤ) dfltPoint).close -
          pyMin ((stochWindow prices k_period i).map (·.low))) /
          (pyMax ((stochWindow prices k_period i).map (·.high)) -
            pyMin ((stochWindow prices k_period i).map (·.low))) ≤ 1 :=
        (div_le_one hsub).mpr (by linarith)
      nlinarith [hfrac, hsub]

theorem stochKValues_bounds (prices : List PricePoint) (hwf : wfSeries prices)
    (k_period : ℕ) (hk : 1 ≤ k_period) :
    ∀ v ∈ stochKValues prices k_period, 0 ≤ v ∧ v ≤ 100 := by
  intro v hv
  rw [stochKValues, List.mem_filterMap] at hv
  rcases hv with ⟨i, hi, hif⟩
  by_cases hc : k_period - 1 ≤ i
  · rw [if_pos hc, Option.some_inj] at hif
    rw [← hif]
    exact stochKAt_bounds prices hwf k_period i hk (List.mem_range.mp hi)
  · rw [if_neg hc] at hif
    cases hif

theorem stochKValues_ne_nil (prices : List PricePoint) (k_period : ℕ)
    (hk : 1 ≤ k_period) (h : k_period ≤ prices.length) :
    stochKValues prices k_period ≠ [] := by
  have hmem : stochKAt prices k_period (k_period - 1) ∈ stochKValues prices k_period := by
    rw [stochKValues, List.mem_filterMap]
    exact ⟨k_period - 1, List.mem_range.mpr (by omega), by rw [if_pos (le_refl _)]⟩
  exact List.ne_nil_of_mem hmem

theorem pyRound1_bounds (q : ℚ) (h0 : 0 ≤ q) (h1 : q ≤ 100) :
    0 ≤ pyRound1 q ∧ pyRound1 q ≤ 100 := by
  rw [pyRound1, pyRoundTo]
  push_cast
  constructor
  · apply div_nonneg _ (by norm_num)
    have : (0 : ℤ) ≤ ⌊q * 10 + 1 / 2⌋ := Int.floor_nonneg.mpr (by linarith)
    exact_mod_cast this
  · rw [div_le_iff₀ (by norm_num : (0 : ℚ) < 10)]
    have h2 : ⌊q * 10 + 1 / 2⌋ ≤ ⌊(2001 / 2 : ℚ)⌋ := Int.floor_mono (by linarith)
    have h3 : ⌊(2001 / 2 : ℚ)⌋ = 1000 := by norm_num
    have : ((⌊q * 10 + 1 / 2⌋ : ℤ) : ℚ) ≤ 1000 := by exact_mod_cast h2.trans_eq h3
    linarith

/-- C10: for a well-formed series of length at least 17, the stochastic result
is present and both `%K` and `%D` lie in `[0, 100]`. -/
theorem claim_c10_stochastic (prices : List PricePoint) (hwf : wfSeries prices)
    (h : 17 ≤ prices.length) :
    ∃ r, _compute_stochastic prices 14 3 = some r
      ∧ 0 ≤ r.pct_k ∧ r.pct_k ≤ 100 ∧ 0 ≤ r.pct_d ∧ r.pct_d ≤ 100 := by
  have hne : stochKValues prices 14 ≠ [] :=
    stochKValues_ne_nil prices 14 (by norm_num) (by omega)
  have hkmem : pyAt (stochKValues prices 14) (-1) 0 ∈ stochKValues prices 14 :=
    pyAt_neg_one_mem _ _ hne
  have hkb := stochKValues_bounds prices hwf 14 (by norm_num) _ hkmem
  have hdb : 0 ≤ stochPctD prices 14 3 ∧ stochPctD prices 14 3 ≤ 100 := by
    rw [stochPctD]
    by_cases hlen : 3 ≤ (stochKValues prices 14).length
    · rw [if_pos hlen]
      have htlen : (pyTail (stochKValues prices 14) 3).length = 3 := by
        rw [pyTail, List.length_drop]; omega
      have hsub : ∀ x ∈ pyTail (stochKValues prices 14) 3, 0 ≤ x ∧ x ≤ 100 := by
        intro x hx
        exact stochKValues_bounds prices hwf 14 (by norm_num) x
          (List.mem_of_mem_drop hx)
      have hs0 : 0 ≤ (pyTail (stochKValues prices 14) 3).sum :=
        List.sum_nonneg fun x hx => (hsub x hx).1
      have hs1 : (pyTail (stochKValues prices 14) 3).sum ≤ 300 := by
        have := List.sum_le_card_nsmul (pyTail (stochKValues prices 14) 3) 100
          fun x hx => (hsub x hx).2
        rw [htlen] at this
        have h300 : (3 : ℕ) • (100 : ℚ) = 300 := by norm_num
        rw [h300] at this
        exact this
      constructor
      · exact div_nonneg hs0 (by norm_num)
      · rw [div_le_iff₀ (by norm_num : (0 : ℚ) < (3 : ℕ))]
        push_cast
        linarith
    · rw [if_neg hlen]
      exact hkb
  refine ⟨⟨pyRound1 (pyAt (stochKValues prices 14) (-1) 0),
      pyRound1 (stochPctD prices 14 3)⟩, ?_, ?_, ?_, ?_, ?_⟩
  · rw [_compute_stochastic, if_neg (by omega : ¬ prices.length < 14 + 3)]
  · exact (pyRound1_bounds _ hkb.1 hkb.2).1
  · exact (pyRound1_bounds _ hkb.1 hkb.2).2
  · exact (pyRound1_bounds _ hdb.1 hdb.2).1
  · exact (pyRound1_bounds _ hdb.1 hdb.2).2

theorem claim_c10_stochastic_witness :
    ∃ r, _compute_stochastic stochWitnessSeries 14 3 = some r
      ∧ 0 ≤ r.pct_k ∧ r.pct_k ≤ 100 ∧ 0 ≤ r.pct_d ∧ r.pct_d ≤ 100 :=
  claim_c10_stochastic stochWitnessSeries (by decide) (by decide)

theorem flat_closes : closesOf flatSeries = List.replicate 20 (100 : ℚ) := by
  simp [flatSeries, closesOf]

theorem flat_bollMiddle : bollMiddle (closesOf flatSeries) 20 = 100 := by
  rw [flat_closes, bollMiddle, bollWindow, pyTail]
  simp [List.sum_replicate, nsmul_eq_mul]
  norm_num

theorem flat_bollStd : bollStd (closesOf flatSeries) 20 = 0 := by
  rw [bollStd]
  have h : (((bollWindow (closesOf flatSeries) 20).map
      fun x => (x - bollMiddle (closesOf flatSeries) 20) ^ 2).sum / ((20 : ℕ) : ℚ)) = 0 := by
    simp only [flat_bollMiddle]
    rw [flat_closes, bollWindow, pyTail]
    simp
  rw [h]
  decide

theorem obvLoop_self (p : PricePoint) :
    ∀ (n : ℕ) (z : ℤ), obvLoop z p (List.replicate n p) = List.replicate n z
  | 0, z => rfl
  | n + 1, z => by
      rw [List.replicate_succ, obvLoop]
      rw [if_neg (lt_irrefl p.close), if_neg (lt_irrefl p.close)]
      rw [obvLoop_self p n z, List.replicate_succ]

theorem rsiDeltas_replicate (q : ℚ) :
    ∀ n : ℕ, rsiDeltas (List.replicate (n + 1) q) = List.replicate n 0
  | 0 => rfl
  | n + 1 => by
      show rsiDeltas (q :: q :: List.replicate n q) = List.replicate (n + 1) 0
      rw [rsiDeltas, sub_self,
        show q :: List.replicate n q = List.replicate (n + 1) q from (List.replicate_succ q n).symm,
        rsiDeltas_replicate q n, List.replicate_succ]

/-- C9: on 20 flat closes at 100.0 with volume 1000 throughout, the Bollinger
standard deviation is 0 and `upper == lower == middle == 100.0`,
`bandwidth == 0`, `pct_b == 0.5`; the OBV running sum is 0 at every step;
and RSI equals exactly 100 (`avg_loss == 0` branch). -/
theorem claim_c9_flat_scenario :
    bollStd (closesOf flatSeries) 20 = 0
    ∧ _compute_bollinger_bands flatSeries 20 2 = some ⟨100, 100, 100, 0, 1 / 2, false⟩
    ∧ obvSeries flatSeries = List.replicate 20 0
    ∧ _compute_rsi flatSeries 14 = some 100 := by
  have hm := flat_bollMiddle
  have hs := flat_bollStd
  have hu : bollUpper (closesOf flatSeries) 20 2 = 100 := by
    rw [bollUpper, hm, hs]; ring
  have hl : bollLower (closesOf flatSeries) 20 2 = 100 := by
    rw [bollLower, hm, hs]; ring
  have hlen20 : ¬ (closesOf flatSeries).length < 20 := by
    rw [flat_closes]; simp
  refine ⟨hs, ?_, ?_, ?_⟩
  · have hbw : bollBandwidth (closesOf flatSeries) 20 2 = 0 := by
      rw [bollBandwidth, if_neg (by rw [hm]; norm_num), hu, hl, hm]
      norm_num
    have hpb : bollPctB (closesOf flatSeries) 20 2 = 1 / 2 := by
      rw [bollPctB, if_pos (by rw [hu, hl]; ring)]
    have hsq : bollSqueeze (closesOf flatSeries) 20 2 = false := by
      rw [bollSqueeze, if_neg (by rw [flat_closes]; simp)]
    rw [_compute_bollinger_bands, if_neg hlen20, hu, hl, hm, hbw, hpb, hsq]
    norm_num [pyRound2, pyRound4, pyRoundTo]
  · show obvSeries (List.replicate 20 ⟨100, 100, 100, 100, 1000⟩) = List.replicate 20 0
    rw [List.replicate_succ, obvSeries, obvLoop_self]
    exact (List.replicate_succ (0 : ℤ) 19).symm
  · have hlen : ¬ (closesOf flatSeries).length < 14 + 1 := by
      rw [flat_closes]; simp
    have hz : (rsiAvgs 14 (rsiDeltas (closesOf flatSeries))).2 = 0 := by
      rw [flat_closes, show List.replicate 20 (100 : ℚ) = List.replicate (19 + 1) 100 from rfl,
        rsiDeltas_replicate]
      exact rsiAvgs_loss_zero 14 _ fun d hd => le_of_eq (List.eq_of_mem_replicate hd).symm
    simp [_compute_rsi, hlen, hz]

/-- C1 (boundary behavior of `_analyze_volume`): a well-formed series of
exactly the guard length 20 makes the up/down-day loop read `prices[-21]`,
an IndexError (`none`), instead of returning a present result; at length 19
the function correctly returns the absent value `some none`. -/
theorem claim_c1_volume_boundary :
    wfSeries flatSeries ∧ flatSeries.length = 20
      ∧ _analyze_volume flatSeries 20 = none
      ∧ _analyze_volume (List.replicate 19 (⟨100, 100, 100, 100, 1000⟩ : PricePoint)) 20 =
          some none :=
  ⟨by decide, by decide, by decide, by decide⟩

/-- C2 (refutation evidence): the engine can raise on well-formed input —
`_analyze_volume` on a series of length exactly 20 evaluates to the
IndexError marker `none`, not to a value. -/
theorem claim_c2_no_throw_violated :
    wfSeries volSeries ∧ volSeries.length = 20
      ∧ _analyze_volume volSeries 20 = none :=
  ⟨by decide, by decide, by decide⟩

theorem fibNearestAcc_min (current : ℚ) :
    ∀ (l : List (String × ℚ)) (b : String × ℚ),
      ∃ r, fibNearestAcc current l (some b) = some r
        ∧ (r ∈ l ∨ r = b)
        ∧ |current - r.2| ≤ |current - b.2|
        ∧ ∀ lv ∈ l, |current - r.2| ≤ |current - lv.2| := by
  intro l
  induction l with
  | nil =>
      intro b
      exact ⟨b, rfl, Or.inr rfl, le_refl _, by intro lv hlv; cases hlv⟩
  | cons lv rest ih =>
      intro b
      rw [fibNearestAcc]
      by_cases hc : |current - lv.2| < |current - b.2|
      · rw [if_pos hc]
        rcases ih lv with ⟨r, hr, hmem, hle, hall⟩
        refine ⟨r, hr, ?_, le_trans hle (le_of_lt hc), ?_⟩
        · rcases hmem with h | h
          · exact Or.inl (List.mem_cons_of_mem _ h)
          · exact Or.inl (h ▸ List.mem_cons_self _ _)
        · intro x hx
          rcases List.mem_cons.mp hx with rfl | hx
          · exact hle
          · exact hall x hx
      · rw [if_neg hc]
        rcases ih b with ⟨r, hr, hmem, hle, hall⟩
        refine ⟨r, hr, ?_, hle, ?_⟩
        · rcases hmem with h | h
          · exact Or.inl (List.mem_cons_of_mem _ h)
          · exact Or.inr h
        · intro x hx
          rcases List.mem_cons.mp hx with rfl | hx
          · exact le_trans hle (not_lt.mp hc)
          · exact hall x hx

theorem fibNearest_min (current : ℚ) (l : List (String × ℚ)) (hl : l ≠ []) :
    ∃ r, fibNearestAcc current l none = some r ∧ r ∈ l
      ∧ ∀ x ∈ l, |current - r.2| ≤ |current - x.2| := by
  cases l with
  | nil => exact absurd rfl hl
  | cons lv rest =>
      rw [fibNearestAcc]
      rcases fibNearestAcc_min current rest lv with ⟨r, hr, hmem, hle, hall⟩
      refine ⟨r, hr, ?_, ?_⟩
      · rcases hmem with h | h
        · exact List.mem_cons_of_mem _ h
        · exact h ▸ List.mem_cons_self _ _
      · intro x hx
        rcases List.mem_cons.mp hx with rfl | hx
        · exact hle
        · exact hall x hx

/-- C8: for a series of length ≥ 20 with a non-degenerate swing range, the
fibonacci result is present, its level list is exactly the rounded
`swing_high - fraction * (swing_high - swing_low)` mapping for fractions
{0, 0.236, 0.382, 0.5, 0.618, 0.786, 1.0}, the 0.0% entry equals the
returned swing high and the 100.0% entry the returned swing low exactly,
and `nearest_level` is a label whose price minimizes the absolute distance
to the current close. -/
theorem claim_c8_fibonacci (prices : List PricePoint) (h : 20 ≤ prices.length)
    (hne : swingHigh prices ≠ swingLow prices) :
    ∃ r, _compute_fibonacci prices = some r
      ∧ r.levels = fibLevels (swingHigh prices) (swingLow prices)
      ∧ r.levels.head? = some ("0.0% (high)", r.swing_high)
      ∧ r.levels.getLast? = some ("100.0% (low)", r.swing_low)
      ∧ ∃ lab price, r.nearest_level = some lab ∧ (lab, price) ∈ r.levels
          ∧ ∀ lv ∈ r.levels,
              |currentClose prices - price| ≤ |currentClose prices - lv.2| := by
  refine ⟨⟨fibLevels (swingHigh prices) (swingLow prices),
      (fibNearestAcc (currentClose prices)
        (fibLevels (swingHigh prices) (swingLow prices)) none).map Prod.fst,
      pyRound2 (swingHigh prices), pyRound2 (swingLow prices)⟩, ?_, rfl, rfl, rfl, ?_⟩
  · rw [_compute_fibonacci, if_neg (by omega : ¬ prices.length < 20), if_neg hne]
  · rcases fibNearest_min (currentClose prices)
      (fibLevels (swingHigh prices) (swingLow prices))
      (by rw [fibLevels]; exact List.cons_ne_nil _ _) with ⟨r, hr, hmem, hall⟩
    refine ⟨r.1, r.2, ?_, ?_, hall⟩
    · show (fibNearestAcc (currentClose prices)
        (fibLevels (swingHigh prices) (swingLow prices)) none).map Prod.fst = some r.1
      rw [hr]
      rfl
    · simpa using hmem

theorem claim_c8_fibonacci_witness :
    ∃ r, _compute_fibonacci fibWitnessSeries = some r
      ∧ r.levels = fibLevels (swingHigh fibWitnessSeries) (swingLow fibWitnessSeries)
      ∧ r.levels.head? = some ("0.0% (high)", r.swing_high)
      ∧ r.levels.getLast? = some ("100.0% (low)", r.swing_low)
      ∧ ∃ lab price, r.nearest_level = some lab ∧ (lab, price) ∈ r.levels
          ∧ ∀ lv ∈ r.levels,
              |currentClose fibWitnessSeries - price| ≤
                |currentClose fibWitnessSeries - lv.2| :=
  claim_c8_fibonacci fibWitnessSeries (by decide)
    (by set_option maxRecDepth 4000 in decide)

theorem highsOf_pos (prices : List PricePoint) (hwf : wfSeries prices) :
    ∀ x ∈ highsOf prices, 0 < x := by
  intro x hx
  rcases List.mem_map.mp hx with ⟨p, hp, rfl⟩
  have h := hwf p hp
  calc (0 : ℚ) < p.low := h.1
    _ ≤ p.close := h.2.2.2.1
    _ ≤ p.high := h.2.2.2.2

theorem lowsOf_pos (prices : List PricePoint) (hwf : wfSeries prices) :
    ∀ x ∈ lowsOf prices, 0 < x := by
  intro x hx
  rcases List.mem_map.mp hx with ⟨p, hp, rfl⟩
  exact (hwf p hp).1

theorem pivotHighs_subset (prices : List PricePoint) :
    ∀ x ∈ pivotHighs prices, x ∈ highsOf prices := by
  intro x hx
  rcases List.mem_filterMap.mp hx with ⟨i, hi, hif⟩
  by_cases hc : 5 ≤ i ∧ i + 5 < prices.length ∧
      pyAt (highsOf prices) (i : ℤ) 0 =
        pyMax (((highsOf prices).take (i + 5 + 1)).drop (i - 5))
  · rw [if_pos hc, Option.some_inj] at hif
    have hlen : i < (highsOf prices).length := by
      rw [highsOf, List.length_map]; omega
    rw [← hif, pyAt_nat, List.get?_eq_get hlen, Option.getD_some]
    exact List.get_mem _ i hlen
  · rw [if_neg hc] at hif
    cases hif

theorem pivotLows_subset (prices : List PricePoint) :
    ∀ x ∈ pivotLows prices, x ∈ lowsOf prices := by
  intro x hx
  rcases List.mem_filterMap.mp hx with ⟨i, hi, hif⟩
  by_cases hc : 5 ≤ i ∧ i + 5 < prices.length ∧
      pyAt (lowsOf prices) (i : ℤ) 0 =
        pyMin (((lowsOf prices).take (i + 5 + 1)).drop (i - 5))
  · rw [if_pos hc, Option.some_inj] at hif
    have hlen : i < (lowsOf prices).length := by
      rw [lowsOf, List.length_map]; omega
    rw [← hif, pyAt_nat, List.get?_eq_get hlen, Option.getD_some]
    exact List.get_mem _ i hlen
  · rw [if_neg hc] at hif
    cases hif

theorem getLastD_mem (l : List ℚ) (h : l ≠ []) : l.getLastD 0 ∈ l := by
  cases l with
  | nil => exact absurd rfl h
  | cons a t =>
      rw [List.getLastD_cons]
      exact List.getLastD_mem_cons t a

theorem headD_le_pyMean (l : List ℚ) (hl : l ≠ []) (h : ∀ x ∈ l, l.headD 0 ≤ x) :
    l.headD 0 ≤ pyMean l := by
  have hlen : 0 < l.length := List.length_pos.mpr hl
  have hq : (0 : ℚ) < l.length := by exact_mod_cast hlen
  rw [pyMean, le_div_iff₀ hq]
  have hs := List.card_nsmul_le_sum l (l.headD 0) h
  rwa [nsmul_eq_mul, mul_comm] at hs

theorem pyMean_le_getLastD (l : List ℚ) (hl : l ≠ []) (h : ∀ x ∈ l, x ≤ l.getLastD 0) :
    pyMean l ≤ l.getLastD 0 := by
  have hlen : 0 < l.length := List.length_pos.mpr hl
  have hq : (0 : ℚ) < l.length := by exact_mod_cast hlen
  rw [pyMean, div_le_iff₀ hq]
  have hs := List.sum_le_card_nsmul l (l.getLastD 0) h
  rwa [nsmul_eq_mul, mul_comm] at hs

theorem clusterAux_spec (θ : ℚ) (hθ : 0 < θ) :
    ∀ (rest cur : List ℚ), cur ≠ [] →
      (∀ x ∈ cur, 0 < x) →
      (∀ x ∈ cur, cur.headD 0 ≤ x) →
      (∀ x ∈ cur, x ≤ cur.getLastD 0) →
      rest.Pairwise (· ≤ ·) →
      (∀ x ∈ rest, 0 < x) →
      (∀ x ∈ rest, cur.getLastD 0 ≤ x) →
      ((clusterAux θ cur rest).map pyMean).Chain' (· < ·)
      ∧ ∃ m ms, (clusterAux θ cur rest).map pyMean = m :: ms ∧ cur.headD 0 ≤ m := by
  intro rest
  induction rest with
  | nil =>
      intro cur hne hpos hhd hlast _ _ _
      rw [clusterAux]
      exact ⟨by simp, pyMean cur, [], by simp, headD_le_pyMean cur hne hhd⟩
  | cons level rest ih =>
      intro cur hne hpos hhd hlast hpair hrpos hcr
      have hlastmem : cur.getLastD 0 ∈ cur := getLastD_mem cur hne
      have hlastpos : 0 < cur.getLastD 0 := hpos _ hlastmem
      have hlaslev : cur.getLastD 0 ≤ level := hcr level (List.mem_cons_self _ _)
      have hpc := List.pairwise_cons.mp hpair
      have hlevrest : ∀ x ∈ rest, level ≤ x := hpc.1
      have hpair' : rest.Pairwise (· ≤ ·) := hpc.2
      have hrpos' : ∀ x ∈ rest, 0 < x := fun x hx => hrpos x (List.mem_cons_of_mem _ hx)
      have hlevpos : 0 < level := hrpos level (List.mem_cons_self _ _)
      rw [clusterAux]
      by_cases hc : |level - cur.getLastD 0| / cur.getLastD 0 < θ
      · rw [if_pos hc]
        have happ : (cur ++ [level]).getLastD 0 = level := List.getLastD_concat _ _ _
        have hhdapp : (cur ++ [level]).headD 0 = cur.headD 0 := by
          cases cur with
          | nil => exact absurd rfl hne
          | cons a t => rfl
        have hmemapp : ∀ x ∈ cur ++ [level], x ∈ cur ∨ x = level := by
          intro x hx
          rcases List.mem_append.mp hx with hx | hx
          · exact Or.inl hx
          · exact Or.inr (List.mem_singleton.mp hx)
        have hpos' : ∀ x ∈ cur ++ [level], 0 < x := by
          intro x hx
          rcases hmemapp x hx with hx | rfl
          · exact hpos x hx
          · exact hlevpos
        have hhd' : ∀ x ∈ cur ++ [level], (cur ++ [level]).headD 0 ≤ x := by
          intro x hx
          rw [hhdapp]
          rcases hmemapp x hx with hx | rfl
          · exact hhd x hx
          · exact le_trans (hhd _ hlastmem) hlaslev
        have hlast' : ∀ x ∈ cur ++ [level], x ≤ (cur ++ [level]).getLastD 0 := by
          intro x hx
          rw [happ]
          rcases hmemapp x hx with hx | rfl
          · exact le_trans (hlast x hx) hlaslev
          · exact le_refl x
        have hcr' : ∀ x ∈ rest, (cur ++ [level]).getLastD 0 ≤ x := by
          intro x hx
          rw [happ]
          exact hlevrest x hx
        obtain ⟨h1, m, ms, h2, h3⟩ :=
          ih (cur ++ [level]) (by simp) hpos' hhd' hlast' hpair' hrpos' hcr'
        exact ⟨h1, m, ms, h2, by rw [← hhdapp]; exact h3⟩
      · rw [if_neg hc]
        have hnotlt : θ ≤ |level - cur.getLastD 0| / cur.getLastD 0 := not_lt.mp hc
        have habs : |level - cur.getLastD 0| = level - cur.getLastD 0 :=
          abs_of_nonneg (sub_nonneg.mpr hlaslev)
        rw [habs] at hnotlt
        have hd : θ * cur.getLastD 0 ≤ level - cur.getLastD 0 :=
          (le_div_iff₀ hlastpos).mp hnotlt
        have hlt : cur.getLastD 0 < level := by
          have := mul_pos hθ hlastpos
          linarith
        obtain ⟨h1, m, ms, h2, h3⟩ :=
          ih [level] (by simp) (by simpa using hlevpos) (by simp) (by simp)
            hpair' hrpos' (by simpa using hlevrest)
        have h3' : level ≤ m := by simpa using h3
        have hmean : pyMean cur < m :=
          lt_of_le_of_lt (pyMean_le_getLastD cur hne hlast) (lt_of_lt_of_le hlt h3')
        constructor
        · rw [List.map_cons, h2]
          exact List.chain'_cons.mpr ⟨hmean, h2 ▸ h1⟩
        · exact ⟨pyMean cur, m :: ms, by rw [List.map_cons, h2],
            headD_le_pyMean cur hne hhd⟩

theorem cluster_levels_sorted (levels : List ℚ) (θ : ℚ) (hθ : 0 < θ)
    (hpos : ∀ x ∈ levels, 0 < x) :
    (cluster_levels levels θ).Pairwise (· < ·) := by
  rw [cluster_levels]
  by_cases hnil : levels = []
  · rw [if_pos hnil]
    exact List.Pairwise.nil
  · rw [if_neg hnil]
    have hperm : (List.insertionSort (· ≤ ·) levels).Perm levels :=
      List.perm_insertionSort _ _
    have hsorted : (List.insertionSort (· ≤ ·) levels).Pairwise (· ≤ ·) :=
      List.sorted_insertionSort _ levels
    rcases he : List.insertionSort (· ≤ ·) levels with _ | ⟨s0, st⟩
    · rw [he] at hperm
      exact absurd (List.Perm.nil_eq hperm).symm hnil
    · rw [he] at hperm hsorted
      have hpc := List.pairwise_cons.mp hsorted
      have hspos : ∀ x ∈ s0 :: st, 0 < x := fun x hx => hpos x (hperm.subset hx)
      simp only [List.headD_cons, List.tail_cons]
      obtain ⟨hchain, _, _, _, _⟩ :=
        clusterAux_spec θ hθ st [s0] (by simp)
          (by simpa using hspos s0 (List.mem_cons_self _ _))
          (by simp) (by simp) hpc.2
          (fun x hx => hspos x (List.mem_cons_of_mem _ hx))
          (by simpa using hpc.1)
      exact List.chain'_iff_pairwise.mp hchain

theorem pyRound2_mono (a b : ℚ) (hab : a ≤ b) : pyRound2 a ≤ pyRound2 b := by
  simp only [pyRound2, pyRoundTo]
  have hc : (0 : ℚ) < ((100 : ℕ) : ℚ) := by norm_num
  apply (div_le_div_iff_of_pos_right hc).mpr
  have h1 : a * ((100 : ℕ) : ℚ) + 1 / 2 ≤ b * ((100 : ℕ) : ℚ) + 1 / 2 := by
    have := mul_le_mul_of_nonneg_right hab (le_of_lt hc)
    linarith
  exact_mod_cast Int.floor_mono h1

/-- C7: in every present support/resistance result, the resistance level list
consists of clustered pivot-high levels strictly above the current close in
strictly ascending (nearest-first) order with at most 3 entries, and the
support level list of clustered pivot-low levels strictly below the current
close in strictly descending (nearest-first) order with at most 3 entries;
the returned lists are these levels rounded to 2 decimals, hence weakly
monotone in the same directions. -/
theorem claim_c7_support_resistance (prices : List PricePoint) (hwf : wfSeries prices)
    (h : 20 ≤ prices.length) :
    ∃ r, _find_support_resistance prices 3 = some r
      ∧ r.resistance = (resistance_levels prices 3).map pyRound2
      ∧ r.support = (support_levels prices 3).map pyRound2
      ∧ (∀ x ∈ resistance_levels prices 3,
          x ∈ cluster_levels (pivotHighs prices) (3 / 200) ∧ currentClose prices < x)
      ∧ (resistance_levels prices 3).Pairwise (· < ·)
      ∧ (resistance_levels prices 3).length ≤ 3
      ∧ (∀ x ∈ support_levels prices 3,
          x ∈ cluster_levels (pivotLows prices) (3 / 200) ∧ x < currentClose prices)
      ∧ (support_levels prices 3).Pairwise (· > ·)
      ∧ (support_levels prices 3).length ≤ 3
      ∧ r.resistance.Pairwise (· ≤ ·)
      ∧ r.support.Pairwise (· ≥ ·) := by
  have hrescl : (cluster_levels (pivotHighs prices) (3 / 200)).Pairwise (· < ·) :=
    cluster_levels_sorted _ _ (by norm_num)
      fun x hx => highsOf_pos prices hwf x (pivotHighs_subset prices x hx)
  have hsupcl : (cluster_levels (pivotLows prices) (3 / 200)).Pairwise (· < ·) :=
    cluster_levels_sorted _ _ (by norm_num)
      fun x hx => lowsOf_pos prices hwf x (pivotLows_subset prices x hx)
  have hrp : (resistance_levels prices 3).Pairwise (· < ·) := by
    rw [resistance_levels]
    exact List.Pairwise.sublist (List.take_sublist _ _) (hrescl.filter _)
  have hsuprev : (cluster_levels (pivotLows prices) (3 / 200)).reverse.Pairwise (· > ·) := by
    rw [List.pairwise_reverse]
    exact hsupcl
  have hsp : (support_levels prices 3).Pairwise (· > ·) := by
    rw [support_levels]
    exact List.Pairwise.sublist (List.take_sublist _ _) (hsuprev.filter _)
  have hrmem : ∀ x ∈ resistance_levels prices 3,
      x ∈ cluster_levels (pivotHighs prices) (3 / 200) ∧ currentClose prices < x := by
    intro x hx
    rw [resistance_levels] at hx
    have hx' := List.mem_of_mem_take hx
    rw [List.mem_filter] at hx'
    exact ⟨hx'.1, of_decide_eq_true hx'.2⟩
  have hsmem : ∀ x ∈ support_levels prices 3,
      x ∈ cluster_levels (pivotLows prices) (3 / 200) ∧ x < currentClose prices := by
    intro x hx
    rw [support_levels] at hx
    have hx' := List.mem_of_mem_take hx
    rw [List.mem_filter] at hx'
    exact ⟨List.mem_reverse.mp hx'.1, of_decide_eq_true hx'.2⟩
  have hrr : ((resistance_levels prices 3).map pyRound2).Pairwise (· ≤ ·) :=
    hrp.map _ fun a b hab => pyRound2_mono a b (le_of_lt hab)
  have hsr : ((support_levels prices 3).map pyRound2).Pairwise (· ≥ ·) :=
    hsp.map _ fun a b hab => pyRound2_mono b a (le_of_lt hab)
  refine ⟨⟨(resistance_levels prices 3).map pyRound2,
      (support_levels prices 3).map pyRound2,
      periodHigh prices, periodLow prices, pctFromHigh prices, pctFromLow prices⟩,
    ?_, rfl, rfl, hrmem, hrp, ?_, hsmem, hsp, ?_, hrr, hsr⟩
  · rw [_find_support_resistance, if_neg (by omega : ¬ prices.length < 20)]
  · rw [resistance_levels]
    exact List.length_take_le _ _
  · rw [support_levels]
    exact List.length_take_le _ _

theorem claim_c7_support_resistance_witness :
    ∃ r, _find_support_resistance srWitnessSeries 3 = some r
      ∧ r.resistance = (resistance_levels srWitnessSeries 3).map pyRound2
      ∧ r.support = (support_levels srWitnessSeries 3).map pyRound2
      ∧ (∀ x ∈ resistance_levels srWitnessSeries 3,
          x ∈ cluster_levels (pivotHighs srWitnessSeries) (3 / 200)
            ∧ currentClose srWitnessSeries < x)
      ∧ (resistance_levels srWitnessSeries 3).Pairwise (· < ·)
      ∧ (resistance_levels srWitnessSeries 3).length ≤ 3
      ∧ (∀ x ∈ support_levels srWitnessSeries 3,
          x ∈ cluster_levels (pivotLows srWitnessSeries) (3 / 200)
            ∧ x < currentClose srWitnessSeries)
      ∧ (support_levels srWitnessSeries 3).Pairwise (· > ·)
      ∧ (support_levels srWitnessSeries 3).length ≤ 3
      ∧ r.resistance.Pairwise (· ≤ ·)
      ∧ r.support.Pairwise (· ≥ ·) :=
  claim_c7_support_resistance srWitnessSeries (by decide) (by decide)
